import Mathlib

/-!
Verification of the interval-to-bucket aggregation and pricing engine of the
`custom_components/enedis` integration.

The definitions below are a shallow embedding of the Python sources:

* `helpers.py` — `async_statistics` (per-rule aggregation loop, lines 101-201),
  `weighted_interval` (225-229), `has_range` (232-242), `dateatmidnight` (245-247);
* `coordinator.py` — `_async_statistics` (106-234), `async_insert_costs`
  (282-311), `weighted_interval` (396-401), `has_range` (409-419);
* `enediscoordinator.py` — `weighted_interval` (306-312).

Modelling conventions:

* Machine floats are idealised as `Rat`; Python `round(x, 2)` is modelled as
  round-half-to-even at two decimals (`pyRound2`).
* A timezone-aware `datetime` is a `PyDateTime` record carrying an absolute day
  index `days` (which orders dates and absorbs `timedelta(days=...)`), the
  day-of-month `dom` (the value of the Python attribute `.day`), the
  time-of-day `tod` in seconds since midnight, and a `utc` flag (set by
  `.replace(tzinfo=dt_util.UTC)`).  The calendar relation between `days` and
  `dom` is not computed; where a theorem needs it, it is an explicit hypothesis
  on the input data.  Clock times (`datetime.time()` values and the parsed
  window-boundary strings) are seconds since midnight.
* Raw readings are taken after `int(data["value"])` has succeeded: the source's
  `if (value_collected := int(data.get("value"))) is None: continue` branch is
  dead code (`int` never returns `None`), so a `Reading` carries an `Int` value.
* Python exceptions are modelled with `Except String`; an awaited call that
  may raise is a value of that monad and, faithfully to the absence of any
  `try`/`except` in the statistics routines, errors propagate.
-/

namespace Enedis

/-- Clock time in seconds since midnight, `h:m:s` as parsed by
`datetime.strptime(_, "%H:%M:%S")` (or `"%HH%M"` in `coordinator.py`). -/
def mkTimeHMS (h m s : Nat) : Nat :=
  h * 3600 + m * 60 + s

/-- A timezone-aware Python `datetime`. `days` is an absolute day index used
for ordering and for `timedelta(days=n)`; `dom` is the `.day` attribute
(day of month); `tod` is `.time()` in seconds since midnight. -/
structure PyDateTime where
  days : Int
  dom : Nat
  tod : Nat
  utc : Bool
deriving DecidableEq

/-- Comparison of two (UTC-aware) datetimes: lexicographic on (day, time). -/
def PyDateTime.le (a b : PyDateTime) : Prop :=
  a.days < b.days ∨ (a.days = b.days ∧ a.tod ≤ b.tod)

instance (a b : PyDateTime) : Decidable (PyDateTime.le a b) :=
  inferInstanceAs (Decidable (_ ∨ _))

/-- `d + timedelta(days=1)`.  The result is only ever used on the right of a
`PyDateTime.le` comparison, which never reads `dom`, so `dom` (whose calendar
roll-over is not modelled) is left unchanged. -/
def addOneDay (d : PyDateTime) : PyDateTime :=
  { d with days := d.days + 1 }

/-- `.replace(tzinfo=dt_util.UTC)`. -/
def setUTC (d : PyDateTime) : PyDateTime :=
  { d with utc := true }

/-- helpers.py `dateatmidnight`:
`datetime.combine(date, datetime.min.time()).replace(tzinfo=dt_util.UTC)`.
`coordinator.py` inlines the same expression at lines 188-190 and 203-205. -/
def dateatmidnight (d : PyDateTime) : PyDateTime :=
  { d with tod := 0, utc := true }

/-- One raw interval reading, with `value` already through `int(...)` and
`date` already through `dt_util.parse_datetime` (`utc` still unset: the
loop applies `.replace(tzinfo=dt_util.UTC)` itself). -/
structure Reading where
  date : PyDateTime
  value : Int
  interval_length : Option String
deriving DecidableEq

/-- A rule's time window, the parsed `(start, end)` clock-time pair. -/
structure Window where
  start : Nat
  stop : Nat
deriving DecidableEq

/-- One row handed to the recorder: `StatisticData(start=..., state=..., sum=...)`. -/
structure StatisticData where
  start : PyDateTime
  state : Rat
  sum : Rat
deriving DecidableEq

/-- All matches of `re.findall("PT([0-9]{2})M", s)` on the character list of
`s`, left to right, non-overlapping, resuming after each match. -/
def findPT : List Char → List Nat
  | 'P' :: 'T' :: d1 :: d2 :: 'M' :: rest2 =>
    if d1.isDigit && d2.isDigit then
      (10 * (d1.toNat - 48) + (d2.toNat - 48)) :: findPT rest2
    else
      findPT ('T' :: d1 :: d2 :: 'M' :: rest2)
  | _ :: rest => findPT rest
  | [] => []

/-- helpers.py / coordinator.py `weighted_interval`: minutes/60 when the
string holds exactly one `PT{two digits}M` tag, else 1 (also for a missing or
empty string — `if interval and ...` short-circuits on falsy values and the
regex finds nothing in `""`). -/
def weighted_interval : Option String → Rat
  | none => 1
  | some s =>
    match findPT s.data with
    | [m] => (m : Rat) / 60
    | _ => 1

/-- enediscoordinator.py `weighted_interval` (lines 306-312): returns 1 when
`interval is None`, minutes/60 on exactly one tag, and otherwise falls off the
end of the function, i.e. returns Python `None` — modelled as `none`. -/
def weighted_interval_ec : Option String → Option Rat
  | none => some 1
  | some s =>
    match findPT s.data with
    | [m] => some ((m : Rat) / 60)
    | _ => none

/-- `value_collected / 1000 * interval` — the effective kWh contribution of a
reading (`helpers.py` lines 124-128, `coordinator.py` lines 156-160). -/
def effective_kwh (r : Reading) : Rat :=
  (r.value : Rat) / 1000 * weighted_interval r.interval_length

/-- helpers.py / coordinator.py `has_range`, on clock times in seconds since
midnight (`start_time = hour.time()`, `starting`/`ending` parsed from the
window strings, `midnight = 0`). -/
def has_range (start_time starting ending : Nat) : Bool :=
  if starting < start_time ∧ start_time ≤ ending then
    true
  else if ending = mkTimeHMS 0 0 0 ∧ (starting < start_time ∨ start_time = mkTimeHMS 0 0 0) then
    true
  else
    false

/-- Python `round(x, 2)`: round half to even at two decimals (idealised from
binary floating point to exact rationals). -/
def pyRound2 (q : Rat) : Rat :=
  let n : Rat := q * 100
  let f : Int := ⌊n⌋
  let r : Rat := n - (f : Rat)
  let i : Int :=
    if 1 < 2 * r then f + 1
    else if 2 * r < 1 then f
    else if f % 2 = 0 then f else f + 1
  (i : Rat) / 100

/-- Lookup in an insertion-ordered Python dict keyed by `PyDateTime`. -/
def dictGet {α : Type} : List (PyDateTime × α) → PyDateTime → Option α
  | [], _ => none
  | (k, v) :: rest, key => if k = key then some v else dictGet rest key

/-- `dict.update({key: val})`: replace in place when the key exists, append
otherwise (Python dicts preserve insertion order on update). -/
def dictUpsert {α : Type} : List (PyDateTime × α) → PyDateTime → α → List (PyDateTime × α)
  | [], key, val => [(key, val)]
  | (k, v) :: rest, key, val =>
    if k = key then (key, val) :: rest else (k, v) :: dictUpsert rest key val

/-- Dead-zone de-duplication guard of `coordinator.py` (lines 169-173):
`last_stats_time is not None and date_collected <= last_stats_time + timedelta(days=1)`.
Here `last_stats_time` is a parsed datetime, so the comparison is well typed. -/
def guard_skip (lastTime : Option PyDateTime) (dc : PyDateTime) : Bool :=
  match lastTime with
  | none => false
  | some lt => decide (PyDateTime.le dc (addOneDay lt))

/-! ### coordinator.py `_async_statistics` — per-rule aggregation loop -/

/-- Dict cell of `collects[name]["statistics"]` in `coordinator.py`:
the tuple `(value, summary)`. -/
structure CCell where
  state : Rat
  sum : Rat
deriving DecidableEq

/-- Transient per-rule aggregation state of the `coordinator.py` loop:
`ref_date`, `value`, the running `summary`, and the statistics dict. -/
structure CState where
  refDate : Option PyDateTime
  value : Rat
  summary : Rat
  stats : List (PyDateTime × CCell)
deriving DecidableEq

/-- Bucket finalization of `coordinator.py` (lines 187-197 and the flush at
202-210): defensive re-merge with an already-buffered same-day value, then
`summary += value` and the dict update.  Returns
`(merged value, new summary, new statistics dict)`. -/
def coordFinalize (s : CState) (rd : PyDateTime) : Rat × Rat × List (PyDateTime × CCell) :=
  let date_ref := dateatmidnight rd
  let v : Rat :=
    match dictGet s.stats date_ref with
    | some cell => cell.state + s.value
    | none => s.value
  let summary := s.summary + v
  (v, summary, dictUpsert s.stats date_ref ⟨v, summary⟩)

/-- One iteration of the reading loop of `coordinator.py`
`_async_statistics` (lines 155-200) for one rule. -/
def coordStep (w : Window) (lastTime : Option PyDateTime) (s : CState) (r : Reading) : CState :=
  let vc : Rat := effective_kwh r
  let dc : PyDateTime := setUTC r.date
  if !(has_range dc.tod w.start w.stop) then s
  else if guard_skip lastTime dc then s
  else
    match s.refDate with
    | none => { s with value := s.value + vc, refDate := some dc }
    | some rd =>
      if dc.dom = rd.dom then
        { s with value := s.value + vc }
      else if dc.tod = mkTimeHMS 0 0 0 ∧ rd.tod ≠ mkTimeHMS 0 0 0 then
        { s with value := s.value + vc }
      else
        let fin := coordFinalize s rd
        { refDate := some dc, value := vc, summary := fin.2.1, stats := fin.2.2 }

/-- End-of-stream flush of `coordinator.py` (lines 202-210): finalize the open
bucket when its accumulated value is positive. -/
def coordFlush (s : CState) : CState :=
  if 0 < s.value then
    match s.refDate with
    | some rd =>
      let fin := coordFinalize s rd
      { s with summary := fin.2.1, stats := fin.2.2 }
    | none => s
  else s

/-- Whole per-rule pass of `coordinator.py` `_async_statistics`:
fold the reading loop from the fresh state, then flush. -/
def coordRun (w : Window) (lastTime : Option PyDateTime) (summary0 : Rat)
    (datas : List Reading) : CState :=
  coordFlush (datas.foldl (coordStep w lastTime) ⟨none, 0, summary0, []⟩)

/-- The energy `StatisticData` rows built from the statistics dict
(`coordinator.py` lines 216-220). -/
def coordRecords (s : CState) : List StatisticData :=
  s.stats.map fun p => ⟨p.1, p.2.state, p.2.sum⟩

/-- One pricing rule as consumed by `coordinator.py` `_async_statistics`. -/
structure Rule where
  statistic_id : String
  name : String
  price : Rat
  window : Window

/-- Rule loop of `coordinator.py` `_async_statistics` (lines 112-213): for each
rule, await `get_last_statistics` on the rule's statistic id (a store read that
may raise, modelled as `Except`), seed `summary` and `last_stats_time` from it,
run the per-rule pass, and record `name ↦ summary`.  There is no `try`/`except`
anywhere in this function, so a raised store error propagates. -/
def coord_statistics (store : String → Except String (Option (Rat × PyDateTime)))
    (datas : List Reading) : List Rule → Except String (List (String × Rat))
  | [] => Except.ok []
  | rule :: rest =>
    match store rule.statistic_id with
    | Except.error e => Except.error e
    | Except.ok last =>
      let summary0 : Rat := match last with | none => 0 | some (s, _) => s
      let lastTime : Option PyDateTime := match last with | none => none | some (_, t) => some t
      let res := coordRun rule.window lastTime summary0 datas
      match coord_statistics store datas rest with
      | Except.error e => Except.error e
      | Except.ok tail => Except.ok ((rule.name, res.summary) :: tail)

/-! ### helpers.py `async_statistics` — per-rule aggregation loop

In `helpers.py` the value fetched for `last_stats_time` is a *string*
(`datetime.fromtimestamp(...).strftime("%Y-%m-%d")`, lines 112-118), so the
guard expression `date_collected <= last_stats_time + timedelta(days=1)`
(lines 139-143) evaluates `str + timedelta` and raises `TypeError` whenever
`last_stats_time is not None` and the reading has passed the window filter. -/

/-- The Python error message raised by `"..." + timedelta(days=1)`. -/
def strTimedeltaTypeError : String :=
  "TypeError: can only concatenate str (not \"datetime.timedelta\") to str"

/-- Dict cell of `collects[name]["statistics"]` in `helpers.py`: the tuple
`(value, summary, cost, cost_summary)`. -/
structure HCell where
  state : Rat
  sum : Rat
  cost : Rat
  cost_sum : Rat
deriving DecidableEq

/-- Transient per-rule aggregation state of the `helpers.py` loop. -/
structure HState where
  refDate : Option PyDateTime
  value : Rat
  summary : Rat
  stats : List (PyDateTime × HCell)
deriving DecidableEq

/-- Bucket finalization of `helpers.py` (lines 157-180 and the flush at
182-201): defensive re-merge with an already-buffered same-day value, then
`summary += value`, `cost = round(value * price, 2)`,
`cost_summary = round(summary * price, 2)`, and the dict update. -/
def helpersFinalize (price : Rat) (s : HState) (rd : PyDateTime) : Rat × Rat × List (PyDateTime × HCell) :=
  let date_ref := dateatmidnight rd
  let v : Rat :=
    match dictGet s.stats date_ref with
    | some cell => cell.state + s.value
    | none => s.value
  let summary := s.summary + v
  let cost := pyRound2 (v * price)
  let cost_summary := pyRound2 (summary * price)
  (v, summary, dictUpsert s.stats date_ref ⟨v, summary, cost, cost_summary⟩)

/-- The state-machine body of the `helpers.py` reading loop (lines 145-180),
once a reading has passed the window filter and the dead-zone guard. -/
def helpersMachine (price : Rat) (s : HState) (dc : PyDateTime) (vc : Rat) : HState :=
  match s.refDate with
  | none => { s with value := s.value + vc, refDate := some dc }
  | some rd =>
    if dc.dom = rd.dom then
      { s with value := s.value + vc }
    else if dc.tod = mkTimeHMS 0 0 0 ∧ rd.tod ≠ mkTimeHMS 0 0 0 then
      { s with value := s.value + vc }
    else
      let fin := helpersFinalize price s rd
      { refDate := some dc, value := vc, summary := fin.2.1, stats := fin.2.2 }

/-- One iteration of the reading loop of `helpers.py` `async_statistics`
(lines 123-180) for one rule.  `lastTime` is the `%Y-%m-%d` string fetched at
lines 112-118; reaching the dead-zone guard with it non-`None` raises. -/
def helpersStep (price : Rat) (w : Window) (lastTime : Option String)
    (s : HState) (r : Reading) : Except String HState :=
  let vc : Rat := effective_kwh r
  let dc : PyDateTime := setUTC r.date
  if !(has_range dc.tod w.start w.stop) then Except.ok s
  else
    match lastTime with
    | some _ => Except.error strTimedeltaTypeError
    | none => Except.ok (helpersMachine price s dc vc)

/-- The reading loop of `helpers.py`, threading the state through `Except`. -/
def helpersLoop (price : Rat) (w : Window) (lastTime : Option String)
    (s : HState) : List Reading → Except String HState
  | [] => Except.ok s
  | r :: rest =>
    match helpersStep price w lastTime s r with
    | Except.error e => Except.error e
    | Except.ok s' => helpersLoop price w lastTime s' rest

/-- End-of-stream flush of `helpers.py` (lines 182-201). -/
def helpersFlush (price : Rat) (s : HState) : HState :=
  if 0 < s.value then
    match s.refDate with
    | some rd =>
      let fin := helpersFinalize price s rd
      { s with summary := fin.2.1, stats := fin.2.2 }
    | none => s
  else s

/-- Per-rule pass of `helpers.py` `async_statistics` from an arbitrary initial
state (the statistics dict of `collects[name]` is shared between rules of equal
`name`, so a later rule starts from the dict the earlier one left behind). -/
def helpersRunFrom (price : Rat) (w : Window) (lastTime : Option String)
    (s0 : HState) (datas : List Reading) : Except String HState :=
  match helpersLoop price w lastTime s0 datas with
  | Except.error e => Except.error e
  | Except.ok s => Except.ok (helpersFlush price s)

/-- Per-rule pass of `helpers.py` `async_statistics` for a fresh `name`:
`ref_date = None`, `value = 0`, `summary` seeded from the store (0 when
absent), empty statistics dict. -/
def async_statistics_rule (price : Rat) (w : Window) (lastTime : Option String)
    (summary0 : Rat) (datas : List Reading) : Except String HState :=
  helpersRunFrom price w lastTime ⟨none, 0, summary0, []⟩ datas

/-- The energy rows `StatisticData(start=date_ref, state=datas[0], sum=datas[1])`
built at `helpers.py` line 210. -/
def energyRecords (s : HState) : List StatisticData :=
  s.stats.map fun p => ⟨p.1, p.2.state, p.2.sum⟩

/-- The cost rows `StatisticData(start=date_ref, state=datas[2], sum=datas[3])`
built at `helpers.py` line 211. -/
def costRecords (s : HState) : List StatisticData :=
  s.stats.map fun p => ⟨p.1, p.2.cost, p.2.cost_sum⟩

/-! ### coordinator.py `async_insert_costs` -/

/-- Cost-row accumulation loop of `coordinator.py` `async_insert_costs`
(lines 293-297). -/
def insertCostsGo (price : Rat) : List StatisticData → Rat → List StatisticData
  | [], _ => []
  | stat :: rest, cost_sum =>
    let cost := pyRound2 (stat.state * price)
    ⟨stat.start, cost, cost_sum + cost⟩ :: insertCostsGo price rest (cost_sum + cost)

/-- `coordinator.py` `async_insert_costs` (lines 282-311).  `store` models
`get_last_statistics` returning the last persisted `sum` of a statistic id.
Note the source seeds `cost_sum` from `statistic_id` — the energy series id it
was handed — while the emitted metadata targets `f"{statistic_id}_cost"`.
Returns the list of cost rows written (empty when nothing is written). -/
def async_insert_costs (store : String → Option Rat) (statistics : List StatisticData)
    (statistic_id : String) (price : Rat) : List StatisticData :=
  if price ≤ 0 then []
  else
    let cost_sum : Rat := match store statistic_id with | none => 0 | some s => s
    insertCostsGo price statistics cost_sum

/-! ### Specification-side predicates used to state the claims -/

/-- The running-sum recurrence of spec §4.4 / §8: each row's `sum` is the
previous row's `sum` (the seed for the first row) plus the row's `state`. -/
def sumsOK (seed : Rat) : List StatisticData → Prop
  | [] => True
  | rec :: rest => rec.sum = seed + rec.state ∧ sumsOK rec.sum rest

/-- Emitted sums are monotonically non-decreasing. -/
def sumsNondec (l : List StatisticData) : Prop :=
  List.Chain' (fun a b => a.sum ≤ b.sum) l

/-- The input stream is chronologically ascending and calendar-consistent:
later readings are not earlier, and two readings on the same absolute day have
the same day-of-month (the calendar relation `PyDateTime` does not compute). -/
def DataOK (datas : List Reading) : Prop :=
  List.Pairwise
    (fun a b => PyDateTime.le a.date b.date ∧ (a.date.days = b.date.days → a.date.dom = b.date.dom))
    datas

/-- A record start lying at 00:00:00 UTC. -/
def midnightUTC (d : PyDateTime) : Prop :=
  d.tod = mkTimeHMS 0 0 0 ∧ d.utc = true

/-- The last emitted sum of a statistics dict, or the seed when it is empty. -/
def lastSum (seed : Rat) : List (PyDateTime × HCell) → Rat
  | [] => seed
  | [p] => p.2.sum
  | _ :: q :: rest => lastSum seed (q :: rest)

/-- The last sum of a row list, or the seed when it is empty. -/
def lastRecSum (seed : Rat) : List StatisticData → Rat
  | [] => seed
  | [r] => r.sum
  | _ :: q :: rest => lastRecSum seed (q :: rest)

/-- All dict keys lie on absolute days strictly before `n`. -/
def keysBelow (n : Int) (l : List (PyDateTime × HCell)) : Prop :=
  ∀ p ∈ l, p.1.days < n

/-- Whether an `Except` value is a success. -/
def exceptOk {α β : Type} : Except α β → Bool
  | Except.ok _ => true
  | Except.error _ => false

/-- Loop invariant for the running-sum recurrence of the `helpers.py` pass:
the emitted rows satisfy the recurrence, `summary` mirrors the last emitted
sum, a closed state is pristine, and an open bucket lies on a strictly later
day than every emitted key and not after (and calendar-consistently with)
every reading still to come. -/
def InvC2 (summary0 : Rat) (s : HState) (rest : List Reading) : Prop :=
  sumsOK summary0 (energyRecords s) ∧
  s.summary = lastSum summary0 s.stats ∧
  (s.refDate = none → s.value = 0 ∧ s.stats = []) ∧
  (∀ rd, s.refDate = some rd →
    keysBelow rd.days s.stats ∧
    ∀ f ∈ rest, PyDateTime.le rd f.date ∧ (rd.days = f.date.days → rd.dom = f.date.dom))

/-! ### Concrete fixtures used by counterexamples and witnesses

Absolute day 0 is 2023-01-05; 2023-02-05 is 31 days later and shares the
day-of-month 5.  Times of day are seconds since midnight. -/

/-- 2023-01-05 12:00:00, before `.replace(tzinfo=UTC)`. -/
def jan5noon : PyDateTime := ⟨0, 5, mkTimeHMS 12 0 0, false⟩

/-- 2023-02-05 12:00:00, before `.replace(tzinfo=UTC)`: 31 days after
`jan5noon`, same day-of-month. -/
def feb5noon : PyDateTime := ⟨31, 5, mkTimeHMS 12 0 0, false⟩

/-- 2023-01-05 00:00:00 UTC — the bucket key `dateatmidnight jan5noon`. -/
def jan5mid : PyDateTime := ⟨0, 5, 0, true⟩

/-- 2023-02-05 00:00:00 UTC. -/
def feb5mid : PyDateTime := ⟨31, 5, 0, true⟩

/-- A 1000 Wh reading at 2023-01-05 12:00:00 with no interval tag. -/
def rJan5 : Reading := ⟨jan5noon, 1000, none⟩

/-- A 1000 Wh reading at 2023-02-05 12:00:00 with no interval tag. -/
def rFeb5 : Reading := ⟨feb5noon, 1000, none⟩

/-- A 500 Wh reading at 2023-01-05 13:00:00. -/
def rJan5b : Reading := ⟨⟨0, 5, mkTimeHMS 13 0 0, false⟩, 500, none⟩

/-- The default whole-day window: `start == end == "00:00:00"`. -/
def wholeDay : Window := ⟨mkTimeHMS 0 0 0, mkTimeHMS 0 0 0⟩

/-- A store whose read fails for the first rule's statistic id and succeeds
(with no prior state) for every other id. -/
def storeFailA : String → Except String (Option (Rat × PyDateTime)) :=
  fun id => if id = "enedis:pdl_consumption_a" then Except.error "database read failed" else Except.ok none

/-- First rule of the two-rule error-propagation scenario. -/
def ruleA : Rule := ⟨"enedis:pdl_consumption_a", "a", 0, wholeDay⟩

/-- Second rule of the two-rule error-propagation scenario. -/
def ruleB : Rule := ⟨"enedis:pdl_consumption_b", "b", 0, wholeDay⟩

/-- A store holding a last sum of 24 for the energy series `enedis:pdl_x`
and 3.6 for its parallel cost series `enedis:pdl_x_cost`. -/
def storeCost : String → Option Rat :=
  fun id => if id = "enedis:pdl_x" then some 24 else if id = "enedis:pdl_x_cost" then some (18 / 5) else none

/-! ## General lemmas -/

theorem setUTC_days (d : PyDateTime) : (setUTC d).days = d.days := rfl

theorem setUTC_dom (d : PyDateTime) : (setUTC d).dom = d.dom := rfl

theorem setUTC_tod (d : PyDateTime) : (setUTC d).tod = d.tod := rfl

theorem dictGet_eq_none {α : Type} (l : List (PyDateTime × α)) (k : PyDateTime)
    (h : ∀ p ∈ l, p.1 ≠ k) : dictGet l k = none := by
  induction l with
  | nil => rfl
  | cons p rest ih =>
    have hk : p.1 ≠ k := h p (List.mem_cons_self _ _)
    obtain ⟨k', v'⟩ := p
    simp only [dictGet, if_neg hk]
    exact ih fun q hq => h q (List.mem_cons_of_mem _ hq)

theorem dictUpsert_eq_append {α : Type} (l : List (PyDateTime × α)) (k : PyDateTime) (v : α)
    (h : ∀ p ∈ l, p.1 ≠ k) : dictUpsert l k v = l ++ [(k, v)] := by
  induction l with
  | nil => rfl
  | cons p rest ih =>
    have hk : p.1 ≠ k := h p (List.mem_cons_self _ _)
    obtain ⟨k', v'⟩ := p
    simp only [dictUpsert, if_neg hk, List.cons_append, List.cons.injEq, true_and]
    exact ih fun q hq => h q (List.mem_cons_of_mem _ hq)

theorem mem_dictUpsert {α : Type} (l : List (PyDateTime × α)) (k : PyDateTime) (v : α)
    (p : PyDateTime × α) (hp : p ∈ dictUpsert l k v) : p = (k, v) ∨ p ∈ l := by
  induction l with
  | nil =>
    simp only [dictUpsert, List.mem_singleton] at hp
    exact Or.inl hp
  | cons q rest ih =>
    obtain ⟨k', v'⟩ := q
    by_cases hq : k' = k
    · simp only [dictUpsert, if_pos hq, List.mem_cons] at hp
      rcases hp with hp | hp
      · exact Or.inl hp
      · exact Or.inr (List.mem_cons_of_mem _ hp)
    · simp only [dictUpsert, if_neg hq, List.mem_cons] at hp
      rcases hp with hp | hp
      · exact Or.inr (by simp [hp])
      · rcases ih hp with h | h
        · exact Or.inl h
        · exact Or.inr (List.mem_cons_of_mem _ h)

/-! ## C3: `has_range` window-match semantics -/

/-- C3: `has_range t start end` is true exactly when `start < t ≤ end`, or when
`end` is midnight and (`t > start` or `t` is midnight); in particular
`has_range(01:30, 01:30, 08:00)` is false (exclusive start),
`has_range(08:00, 01:30, 08:00)` is true (inclusive end),
`has_range(00:00, 22:00, 00:00)` is true (midnight wraparound), and the
`start == end == midnight` window matches every clock time (the whole day:
every time strictly after midnight plus the midnight sample itself). -/
theorem c3_has_range_semantics :
    (∀ t starting ending : Nat,
      has_range t starting ending = true ↔
        (starting < t ∧ t ≤ ending) ∨
          (ending = mkTimeHMS 0 0 0 ∧ (starting < t ∨ t = mkTimeHMS 0 0 0))) ∧
    has_range (mkTimeHMS 1 30 0) (mkTimeHMS 1 30 0) (mkTimeHMS 8 0 0) = false ∧
    has_range (mkTimeHMS 8 0 0) (mkTimeHMS 1 30 0) (mkTimeHMS 8 0 0) = true ∧
    has_range (mkTimeHMS 0 0 0) (mkTimeHMS 22 0 0) (mkTimeHMS 0 0 0) = true ∧
    (∀ t : Nat, has_range t (mkTimeHMS 0 0 0) (mkTimeHMS 0 0 0) = true) := by
  refine ⟨?_, by decide, by decide, by decide, ?_⟩
  · intro t starting ending
    unfold has_range
    split_ifs with h1 h2
    · simp only [true_iff]
      exact Or.inl h1
    · simp only [true_iff]
      exact Or.inr h2
    · simp only [false_iff]
      tauto
  · intro t
    unfold has_range mkTimeHMS
    split_ifs with h1 h2
    · rfl
    · rfl
    · exfalso
      omega

/-! ## C10: degenerate non-midnight windows match nothing -/

/-- C10: a window whose start equals its end but is not midnight matches no
clock time at all. -/
theorem c10_degenerate_window :
    ∀ t starting : Nat, starting ≠ mkTimeHMS 0 0 0 →
      has_range t starting starting = false := by
  intro t starting hs
  unfold has_range mkTimeHMS at *
  split_ifs with h1 h2
  · exfalso; omega
  · exfalso; omega
  · rfl

/-- Witness for C10 at a concrete 08:00/08:00 window. -/
theorem c10_degenerate_window_witness :
    mkTimeHMS 8 0 0 ≠ mkTimeHMS 0 0 0 ∧
    has_range (mkTimeHMS 9 15 0) (mkTimeHMS 8 0 0) (mkTimeHMS 8 0 0) = false :=
  ⟨by decide, c10_degenerate_window (mkTimeHMS 9 15 0) (mkTimeHMS 8 0 0) (by decide)⟩

/-! ## C7: `weighted_interval` -/

/-- C7 counterexample: the claim says `weighted_interval` returns 1 for any
present string without a (two-digit) `PT..M` tag, but the
`enediscoordinator.py` variant returns Python `None` on such input
(for example `"PT5M"`, whose single digit does not match `[0-9]{2}`). -/
theorem c7_counterexample :
    weighted_interval_ec (some "PT5M") = none ∧
    weighted_interval_ec (some "PT5M") ≠ some 1 := by
  refine ⟨rfl, ?_⟩
  intro h
  rw [show weighted_interval_ec (some "PT5M") = none from rfl] at h
  exact Option.noConfusion h

/-- C7 amended: the `helpers.py`/`coordinator.py` `weighted_interval` returns
minutes/60 when the string holds exactly one `PT{two-digit}M` tag and 1
otherwise, including when the input is missing; the `enediscoordinator.py`
variant agrees on missing input and on exactly-one-tag strings, but returns
`None` instead of 1 for any other present string.  A reading of 1000 Wh with
`interval_length = "PT30M"` contributes 1000/1000 · 30/60 = 0.5 kWh. -/
theorem c7_amended :
    weighted_interval none = 1 ∧
    weighted_interval_ec none = some 1 ∧
    (∀ (s : String) (m : Nat), findPT s.data = [m] →
      weighted_interval (some s) = (m : Rat) / 60 ∧
      weighted_interval_ec (some s) = some ((m : Rat) / 60)) ∧
    (∀ s : String, (findPT s.data).length ≠ 1 →
      weighted_interval (some s) = 1 ∧ weighted_interval_ec (some s) = none) ∧
    findPT "PT30M".data = [30] ∧
    (1000 : Rat) / 1000 * weighted_interval (some "PT30M") = 1 / 2 := by
  have h30 : findPT "PT30M".data = [30] := by decide
  have hwi : ∀ s : String, weighted_interval (some s)
      = (match findPT s.data with | [m] => (m : Rat) / 60 | _ => 1) := fun _ => rfl
  have hec : ∀ s : String, weighted_interval_ec (some s)
      = (match findPT s.data with | [m] => some ((m : Rat) / 60) | _ => none) := fun _ => rfl
  refine ⟨rfl, rfl, ?_, ?_, h30, ?_⟩
  · intro s m h
    rw [hwi s, hec s, h]
    exact ⟨rfl, rfl⟩
  · intro s h
    rw [hwi s, hec s]
    cases hf : findPT s.data with
    | nil => exact ⟨rfl, rfl⟩
    | cons a t =>
      cases t with
      | nil => exact absurd (by rw [hf]; rfl) h
      | cons b t' => exact ⟨rfl, rfl⟩
  · rw [hwi "PT30M", h30]
    norm_num

/-- Witness for C7 amended at `"PT30M"` (one tag) and `"PT5M"` (no tag). -/
theorem c7_amended_witness :
    weighted_interval (some "PT30M") = (30 : Rat) / 60 ∧
    weighted_interval (some "PT5M") = 1 :=
  ⟨(c7_amended.2.2.1 "PT30M" 30 (by decide)).1,
   (c7_amended.2.2.2.1 "PT5M" (by decide)).1⟩

/-! ## C4: the dead-zone guard of `helpers.py` raises -/

/-- C4: in `helpers.py` the fetched `last_stats_time` is a `%Y-%m-%d` string
(lines 112-118), so the dead-zone guard `date_collected <=
last_stats_time + timedelta(days=1)` evaluates `str + timedelta` and raises
`TypeError` for the first in-window reading whenever persisted state exists;
the same call without persisted state succeeds. -/
theorem c4_dead_zone_typeerror :
    async_statistics_rule (3 / 20) wholeDay (some "2023-01-04") 24 [rJan5]
      = Except.error strTimedeltaTypeError ∧
    exceptOk (async_statistics_rule (3 / 20) wholeDay none 24 [rJan5]) = true :=
  ⟨rfl, rfl⟩

/-! ## C8: a failing rule aborts the whole statistics pass -/

/-- C8 counterexample: with a store whose read fails for rule `a`'s statistic
id, the two-rule run returns the error and produces no statistics at all — in
particular none for rule `b`, although the one-rule run on `b` alone succeeds.
This contradicts the claim that a failure in one rule is caught and the other
rules are still processed. -/
theorem c8_counterexample :
    coord_statistics storeFailA [] [ruleA, ruleB] = Except.error "database read failed" ∧
    coord_statistics storeFailA [] [ruleB] = Except.ok [("b", 0)] :=
  ⟨rfl, rfl⟩

/-- C8 amended: a failure raised while processing one rule (here, reading that
rule's last statistics from the store) is not caught at the rule boundary: it
propagates out of the statistics pass, and the remaining rules of the same run
are not processed and produce no statistics.  (The only exception handling
around this code catches the gateway's `EnedisException` in
`_async_fetch_datas`, wrapping the entire pass, not individual rules.) -/
theorem c8_amended (store : String → Except String (Option (Rat × PyDateTime)))
    (datas : List Reading) (r : Rule) (rest : List Rule) (msg : String)
    (h : store r.statistic_id = Except.error msg) :
    coord_statistics store datas (r :: rest) = Except.error msg := by
  unfold coord_statistics
  rw [h]

/-- Witness for C8 amended on the concrete failing store. -/
theorem c8_amended_witness :
    storeFailA ruleA.statistic_id = Except.error "database read failed" ∧
    coord_statistics storeFailA [] (ruleA :: [ruleB]) = Except.error "database read failed" :=
  ⟨rfl, c8_amended storeFailA [] ruleA [ruleB] "database read failed" rfl⟩

/-! ## C6: cost records are seeded from the energy series -/

/-- C6: `async_insert_costs` reads the last persisted sum of the *energy*
statistic id it was handed (`get_last_statistics` with `statistic_id`, line
288-290) although it writes to `f"{statistic_id}_cost"` (line 306).  With the
energy series at sum 24 and the cost series at sum 3.6, price 0.15, and one
bucket of 10 kWh, the emitted cost row carries sum 24 + 1.5 = 25.5 instead of
the claimed 3.6 + 1.5 = 5.1.  The non-positive-price skip and the per-bucket
`round(period_energy * price, 2)` formula do behave as claimed. -/
theorem c6_cost_seed_bug :
    async_insert_costs storeCost [⟨jan5mid, 10, 34⟩] "enedis:pdl_x" (3 / 20)
      = [⟨jan5mid, 3 / 2, 51 / 2⟩] ∧
    storeCost "enedis:pdl_x_cost" = some (18 / 5) ∧
    (18 / 5 : Rat) + 3 / 2 ≠ 51 / 2 ∧
    async_insert_costs storeCost [⟨jan5mid, 10, 34⟩] "enedis:pdl_x" 0 = [] := by
  refine ⟨?_, rfl, by norm_num, by norm_num [async_insert_costs]⟩
  norm_num [async_insert_costs, insertCostsGo, storeCost, pyRound2]

/-! ## C1: the per-reading transition compares day-of-month, not calendar day -/

/-- C1 counterexample: a reading on 2023-02-05 12:00 arriving while the open
bucket references 2023-01-05 12:00 lies on a different calendar day (31 days
later), yet the state machine adds it to the open bucket (the source compares
only `date_collected.day == ref_date.day`, the day of month) — no bucket is
finalized and no new bucket is opened, contradicting the claimed transition
for a new calendar day. -/
theorem c1_calendar_day_cex :
    (setUTC feb5noon).days ≠ (setUTC jan5noon).days ∧
    coordStep wholeDay none ⟨some (setUTC jan5noon), 1, 0, []⟩ rFeb5
      = ⟨some (setUTC jan5noon), 2, 0, []⟩ := by
  refine ⟨by decide, ?_⟩
  norm_num [coordStep, effective_kwh, weighted_interval, has_range, guard_skip,
    setUTC, mkTimeHMS, rFeb5, feb5noon, jan5noon, wholeDay]

/-- C1 amended: the per-reading transition of the aggregation state machine,
for a reading that passes the window filter and the dead-zone guard while a
bucket is open: a reading whose *day of month* equals the open bucket's
reference day of month is added to the open bucket; a reading exactly at
midnight while the reference time is not midnight is added to the still-open
bucket rather than opening a new one; any other reading on a new day of month
finalizes the open bucket at its reference date and opens a new bucket seeded
with that reading's effective kWh. -/
theorem c1_transition_amended (w : Window) (lastTime : Option PyDateTime) (s : CState)
    (r : Reading) (rd : PyDateTime)
    (href : s.refDate = some rd)
    (hwin : has_range (setUTC r.date).tod w.start w.stop = true)
    (hguard : guard_skip lastTime (setUTC r.date) = false) :
    (r.date.dom = rd.dom →
      coordStep w lastTime s r = { s with value := s.value + effective_kwh r }) ∧
    (r.date.dom ≠ rd.dom → r.date.tod = mkTimeHMS 0 0 0 → rd.tod ≠ mkTimeHMS 0 0 0 →
      coordStep w lastTime s r = { s with value := s.value + effective_kwh r }) ∧
    (r.date.dom ≠ rd.dom → ¬(r.date.tod = mkTimeHMS 0 0 0 ∧ rd.tod ≠ mkTimeHMS 0 0 0) →
      coordStep w lastTime s r =
        { refDate := some (setUTC r.date), value := effective_kwh r,
          summary := (coordFinalize s rd).2.1, stats := (coordFinalize s rd).2.2 }) := by
  have h1 : (!(has_range (setUTC r.date).tod w.start w.stop)) = false := by
    rw [hwin]
    rfl
  have hbase : coordStep w lastTime s r =
      (if (setUTC r.date).dom = rd.dom then
        { s with value := s.value + effective_kwh r }
      else if (setUTC r.date).tod = mkTimeHMS 0 0 0 ∧ rd.tod ≠ mkTimeHMS 0 0 0 then
        { s with value := s.value + effective_kwh r }
      else
        { refDate := some (setUTC r.date), value := effective_kwh r,
          summary := (coordFinalize s rd).2.1, stats := (coordFinalize s rd).2.2 }) := by
    simp only [coordStep]
    rw [h1, hguard, href]
    simp
  rw [setUTC_dom, setUTC_tod] at hbase
  refine ⟨?_, ?_, ?_⟩
  · intro hdom
    rw [hbase, if_pos hdom]
  · intro hdom htod hrd
    rw [hbase, if_neg hdom, if_pos ⟨htod, hrd⟩]
  · intro hdom hnot
    rw [hbase, if_neg hdom, if_neg hnot]

/-- Witness for C1 amended: a same-day-of-month continuation at 13:00. -/
theorem c1_transition_amended_witness :
    coordStep wholeDay none ⟨some (setUTC jan5noon), 1, 0, []⟩ rJan5b
      = ⟨some (setUTC jan5noon), 1 + effective_kwh rJan5b, 0, []⟩ :=
  (c1_transition_amended wholeDay none ⟨some (setUTC jan5noon), 1, 0, []⟩ rJan5b
    (setUTC jan5noon) rfl (by decide) rfl).1 rfl

/-! ## C5: idempotency of a second run -/

/-- C5 counterexample: on the dataset {2023-01-05 12:00, 2023-02-05 12:00}
(two readings of 1000 Wh sharing the day-of-month) the first run from an empty
store emits exactly one bucket, dated 2023-01-05 00:00 UTC — so the persisted
last bucket start is that date — and a second run over the identical dataset
with that persisted state emits one further bucket (dated 2023-02-05), not
zero: the 2023-02-05 reading lies after the dead-zone cutoff of
2023-01-06 00:00. -/
theorem c5_idempotency_cex :
    coordRecords (coordRun wholeDay none 0 [rJan5, rFeb5]) = [⟨jan5mid, 2, 2⟩] ∧
    coordRecords (coordRun wholeDay (some jan5mid) 2 [rJan5, rFeb5]) = [⟨feb5mid, 1, 3⟩] := by
  constructor <;>
    norm_num [coordRun, coordRecords, coordStep, coordFlush, coordFinalize, effective_kwh,
      weighted_interval, has_range, guard_skip, setUTC, dateatmidnight, addOneDay,
      PyDateTime.le, mkTimeHMS, dictGet, dictUpsert, rJan5, rFeb5, jan5noon, feb5noon,
      wholeDay, jan5mid, feb5mid]

/-- A reading at or before the dead-zone cutoff is skipped, whatever the
state. -/
theorem coordStep_guard_skip (w : Window) (lt : PyDateTime) (s : CState) (r : Reading)
    (h : PyDateTime.le (setUTC r.date) (addOneDay lt)) :
    coordStep w (some lt) s r = s := by
  have hg : guard_skip (some lt) (setUTC r.date) = true := by
    unfold guard_skip
    exact decide_eq_true h
  unfold coordStep
  cases hw : has_range (setUTC r.date).tod w.start w.stop
  · simp [hw]
  · simp [hw, hg]

/-- C5 amended: a second run is idempotent exactly when every reading lies at
or before the persisted-start-plus-one-day cutoff: under that hypothesis the
run emits zero buckets and leaves the running sum at its seed.  (The first
run's final bucket start guarantees the hypothesis only when no reading lies
more than one day after the final bucket's reference date; the day-of-month
comparison of `c1_calendar_day_cex` can violate that, as `c5_idempotency_cex`
shows.) -/
theorem c5_idempotent_amended (w : Window) (lt : PyDateTime) (summary0 : Rat)
    (datas : List Reading)
    (h : ∀ r ∈ datas, PyDateTime.le (setUTC r.date) (addOneDay lt)) :
    coordRecords (coordRun w (some lt) summary0 datas) = [] ∧
    (coordRun w (some lt) summary0 datas).summary = summary0 := by
  have hfold : ∀ (l : List Reading) (s : CState),
      (∀ r ∈ l, PyDateTime.le (setUTC r.date) (addOneDay lt)) →
      l.foldl (coordStep w (some lt)) s = s := by
    intro l
    induction l with
    | nil => intro s _; rfl
    | cons a t ih =>
      intro s hl
      rw [List.foldl_cons, coordStep_guard_skip w lt s a (hl a (List.mem_cons_self _ _))]
      exact ih s fun r hr => hl r (List.mem_cons_of_mem _ hr)
  unfold coordRun
  rw [hfold datas _ h]
  constructor
  · unfold coordFlush
    rw [if_neg (lt_irrefl (0 : Rat))]
    rfl
  · unfold coordFlush
    rw [if_neg (lt_irrefl (0 : Rat))]

/-- Witness for C5 amended: one reading inside the dead zone. -/
theorem c5_idempotent_amended_witness :
    coordRecords (coordRun wholeDay (some jan5mid) 2 [rJan5]) = [] :=
  (c5_idempotent_amended wholeDay jan5mid 2 [rJan5] (by
    intro r hr
    rcases List.mem_singleton.mp hr with rfl
    exact Or.inl (by decide))).1

/-! ## Supporting lemmas for the running-sum and midnight invariants -/

theorem dateatmidnight_days (d : PyDateTime) : (dateatmidnight d).days = d.days := rfl

theorem le_setUTC_left (a b : PyDateTime) :
    PyDateTime.le (setUTC a) b ↔ PyDateTime.le a b := Iff.rfl

theorem lastRecSum_seed_free (seed seed' : Rat) (b : StatisticData) (t : List StatisticData) :
    lastRecSum seed (b :: t) = lastRecSum seed' (b :: t) := by
  induction t generalizing b with
  | nil => rfl
  | cons c t' ih => exact ih c

theorem lastSum_append (seed : Rat) (l : List (PyDateTime × HCell)) (e : PyDateTime × HCell) :
    lastSum seed (l ++ [e]) = e.2.sum := by
  induction l with
  | nil => rfl
  | cons p t ih =>
    cases t with
    | nil => rfl
    | cons q t' => exact ih

theorem lastRecSum_map (seed : Rat) (l : List (PyDateTime × HCell)) :
    lastRecSum seed (l.map fun p => (⟨p.1, p.2.state, p.2.sum⟩ : StatisticData))
      = lastSum seed l := by
  induction l with
  | nil => rfl
  | cons p t ih =>
    cases t with
    | nil => rfl
    | cons q t' => exact ih

theorem sumsOK_append (seed : Rat) (l : List StatisticData) (rec : StatisticData)
    (h : sumsOK seed l) (hs : rec.sum = lastRecSum seed l + rec.state) :
    sumsOK seed (l ++ [rec]) := by
  induction l generalizing seed with
  | nil => exact ⟨hs, trivial⟩
  | cons a t ih =>
    obtain ⟨ha, ht⟩ := h
    refine ⟨ha, ih a.sum ht ?_⟩
    cases t with
    | nil => exact hs
    | cons b t' => rw [lastRecSum_seed_free a.sum seed b t']; exact hs

theorem sumsOK_nondec (seed : Rat) (l : List StatisticData)
    (h : sumsOK seed l) (hpos : ∀ rec ∈ l, 0 ≤ rec.state) :
    sumsNondec l := by
  induction l generalizing seed with
  | nil => exact List.chain'_nil
  | cons a t ih =>
    obtain ⟨_, ht⟩ := h
    cases t with
    | nil => unfold sumsNondec; simp
    | cons b t' =>
      obtain ⟨hb, ht'⟩ := ht
      unfold sumsNondec at ih ⊢
      rw [List.chain'_cons]
      refine ⟨?_, ih a.sum ⟨hb, ht'⟩ fun rec hrec => hpos rec (List.mem_cons_of_mem _ hrec)⟩
      rw [hb]
      have := hpos b (List.mem_cons_of_mem _ (List.mem_cons_self _ _))
      linarith

theorem helpersFinalize_of_get_none (price : Rat) (s : HState) (rd : PyDateTime)
    (hget : dictGet s.stats (dateatmidnight rd) = none) :
    helpersFinalize price s rd =
      (s.value, s.summary + s.value,
        dictUpsert s.stats (dateatmidnight rd)
          ⟨s.value, s.summary + s.value, pyRound2 (s.value * price),
            pyRound2 ((s.summary + s.value) * price)⟩) := by
  simp only [helpersFinalize]
  rw [hget]

theorem InvC2_tail (summary0 : Rat) (s : HState) (r : Reading) (rest : List Reading)
    (h : InvC2 summary0 s (r :: rest)) : InvC2 summary0 s rest := by
  obtain ⟨h1, h2, h3, h4⟩ := h
  exact ⟨h1, h2, h3, fun rd hrd =>
    ⟨(h4 rd hrd).1, fun f hf => (h4 rd hrd).2 f (List.mem_cons_of_mem _ hf)⟩⟩

theorem InvC2_set_value (summary0 : Rat) (s : HState) (v : Rat) (rest : List Reading)
    (rd : PyDateTime) (href : s.refDate = some rd)
    (h : InvC2 summary0 s rest) : InvC2 summary0 { s with value := v } rest := by
  obtain ⟨h1, h2, h3, h4⟩ := h
  refine ⟨h1, h2, ?_, ?_⟩
  · intro hn
    rw [show ({ s with value := v } : HState).refDate = s.refDate from rfl, href] at hn
    exact Option.noConfusion hn
  · intro rd' hrd'
    rw [show ({ s with value := v } : HState).refDate = s.refDate from rfl] at hrd'
    exact h4 rd' hrd'

theorem helpersMachine_none (price : Rat) (s : HState) (dc : PyDateTime) (vc : Rat)
    (h : s.refDate = none) :
    helpersMachine price s dc vc = { s with value := s.value + vc, refDate := some dc } := by
  unfold helpersMachine
  rw [h]

theorem helpersMachine_some (price : Rat) (s : HState) (dc : PyDateTime) (vc : Rat)
    (rd : PyDateTime) (h : s.refDate = some rd) :
    helpersMachine price s dc vc =
      (if dc.dom = rd.dom then { s with value := s.value + vc }
       else if dc.tod = mkTimeHMS 0 0 0 ∧ rd.tod ≠ mkTimeHMS 0 0 0 then
         { s with value := s.value + vc }
       else
         { refDate := some dc, value := vc,
           summary := (helpersFinalize price s rd).2.1,
           stats := (helpersFinalize price s rd).2.2 }) := by
  unfold helpersMachine
  rw [h]

/-- The state-machine body preserves the running-sum invariant: an accepted
reading either accumulates into the open bucket (leaving the emitted rows
untouched) or finalizes the open bucket at a fresh, strictly later key, so
that the appended row extends the recurrence. -/
theorem helpersMachine_inv (price summary0 : Rat) (s : HState) (r : Reading)
    (rest : List Reading)
    (hinv : InvC2 summary0 s (r :: rest))
    (hrel : ∀ f ∈ rest, PyDateTime.le r.date f.date ∧
      (r.date.days = f.date.days → r.date.dom = f.date.dom)) :
    InvC2 summary0 (helpersMachine price s (setUTC r.date) (effective_kwh r)) rest := by
  obtain ⟨hsums, hsummary, hnone, hsome⟩ := hinv
  cases href : s.refDate with
  | none =>
    obtain ⟨hv, hst⟩ := hnone href
    rw [helpersMachine_none price s (setUTC r.date) (effective_kwh r) href]
    refine ⟨hsums, hsummary, ?_, ?_⟩
    · intro h
      exact absurd h (by simp)
    · intro rd' hrd'
      have heq : setUTC r.date = rd' := by simpa using hrd'
      subst heq
      refine ⟨?_, ?_⟩
      · show keysBelow (setUTC r.date).days s.stats
        rw [hst]
        intro p hp
        exact absurd hp (List.not_mem_nil p)
      · intro f hf
        exact hrel f hf
  | some rd =>
    obtain ⟨hkeys, hfut⟩ := hsome rd href
    have hsome' : InvC2 summary0 s rest :=
      InvC2_tail summary0 s r rest ⟨hsums, hsummary, hnone, hsome⟩
    rw [helpersMachine_some price s (setUTC r.date) (effective_kwh r) rd href]
    split_ifs with h1 h2
    · exact InvC2_set_value summary0 s (s.value + effective_kwh r) rest rd href hsome'
    · exact InvC2_set_value summary0 s (s.value + effective_kwh r) rest rd href hsome'
    · -- finalize branch
      have hrd_r := hfut r (List.mem_cons_self _ _)
      have hdays : rd.days < r.date.days := by
        rcases hrd_r.1 with hlt | heq
        · exact hlt
        · exact absurd ((hrd_r.2 heq.1).symm) h1
      have hfresh : ∀ p ∈ s.stats, p.1 ≠ dateatmidnight rd := by
        intro p hp heq
        have hlt := hkeys p hp
        rw [heq, dateatmidnight_days] at hlt
        exact lt_irrefl _ hlt
      have hget : dictGet s.stats (dateatmidnight rd) = none := dictGet_eq_none _ _ hfresh
      have hupsert := dictUpsert_eq_append s.stats (dateatmidnight rd)
        (⟨s.value, s.summary + s.value, pyRound2 (s.value * price),
          pyRound2 ((s.summary + s.value) * price)⟩ : HCell) hfresh
      rw [helpersFinalize_of_get_none price s rd hget]
      refine ⟨?_, ?_, ?_, ?_⟩
      · show sumsOK summary0 (energyRecords
          ⟨some (setUTC r.date), effective_kwh r, s.summary + s.value,
            dictUpsert s.stats (dateatmidnight rd)
              ⟨s.value, s.summary + s.value, pyRound2 (s.value * price),
                pyRound2 ((s.summary + s.value) * price)⟩⟩)
        unfold energyRecords
        rw [show (⟨some (setUTC r.date), effective_kwh r, s.summary + s.value,
            dictUpsert s.stats (dateatmidnight rd)
              ⟨s.value, s.summary + s.value, pyRound2 (s.value * price),
                pyRound2 ((s.summary + s.value) * price)⟩⟩ : HState).stats
          = dictUpsert s.stats (dateatmidnight rd)
              ⟨s.value, s.summary + s.value, pyRound2 (s.value * price),
                pyRound2 ((s.summary + s.value) * price)⟩ from rfl, hupsert, List.map_append]
        refine sumsOK_append summary0 _ _ hsums ?_
        show s.summary + s.value
          = lastRecSum summary0
              (s.stats.map fun p => (⟨p.1, p.2.state, p.2.sum⟩ : StatisticData)) + s.value
        rw [lastRecSum_map, ← hsummary]
      · show s.summary + s.value = lastSum summary0 (dictUpsert s.stats (dateatmidnight rd)
          ⟨s.value, s.summary + s.value, pyRound2 (s.value * price),
            pyRound2 ((s.summary + s.value) * price)⟩)
        rw [hupsert, lastSum_append]
      · intro h
        exact absurd h (by simp)
      · intro rd' hrd'
        have heq : setUTC r.date = rd' := by simpa using hrd'
        subst heq
        refine ⟨?_, ?_⟩
        · show keysBelow (setUTC r.date).days (dictUpsert s.stats (dateatmidnight rd)
            ⟨s.value, s.summary + s.value, pyRound2 (s.value * price),
              pyRound2 ((s.summary + s.value) * price)⟩)
          rw [hupsert]
          intro p hp
          rcases List.mem_append.mp hp with hmem | hmem
          · exact lt_trans (hkeys p hmem) hdays
          · have hpk := List.mem_singleton.mp hmem
            rw [hpk]
            show (dateatmidnight rd).days < (setUTC r.date).days
            rw [dateatmidnight_days, setUTC_days]
            exact hdays
        · intro f hf
          exact hrel f hf

/-- One accepted-or-skipped step preserves the running-sum invariant. -/
theorem helpersStep_inv (price : Rat) (w : Window) (lastTime : Option String)
    (summary0 : Rat) (s s' : HState) (r : Reading) (rest : List Reading)
    (hok : helpersStep price w lastTime s r = Except.ok s')
    (hinv : InvC2 summary0 s (r :: rest))
    (hrel : ∀ f ∈ rest, PyDateTime.le r.date f.date ∧
      (r.date.days = f.date.days → r.date.dom = f.date.dom)) :
    InvC2 summary0 s' rest := by
  simp only [helpersStep] at hok
  cases hw : has_range (setUTC r.date).tod w.start w.stop with
  | false =>
    rw [hw] at hok
    simp only [Bool.not_false, if_true, Except.ok.injEq] at hok
    subst hok
    exact InvC2_tail summary0 s r rest hinv
  | true =>
    rw [hw] at hok
    simp only [Bool.not_true, Bool.false_eq_true, if_false] at hok
    cases lastTime with
    | some t => exact absurd hok (by simp)
    | none =>
      simp only [Except.ok.injEq] at hok
      subst hok
      exact helpersMachine_inv price summary0 s r rest hinv hrel

/-- The whole reading loop preserves the running-sum invariant. -/
theorem helpersLoop_inv (price : Rat) (w : Window) (lastTime : Option String)
    (summary0 : Rat) :
    ∀ (datas : List Reading) (s s' : HState),
      DataOK datas →
      InvC2 summary0 s datas →
      helpersLoop price w lastTime s datas = Except.ok s' →
      InvC2 summary0 s' [] := by
  intro datas
  induction datas with
  | nil =>
    intro s s' _ hinv hok
    unfold helpersLoop at hok
    injection hok with hs
    subst hs
    exact hinv
  | cons r rest ih =>
    intro s s' hdata hinv hok
    unfold helpersLoop at hok
    have hdata' := List.pairwise_cons.mp hdata
    cases hstep : helpersStep price w lastTime s r with
    | error e =>
      rw [hstep] at hok
      exact absurd hok (by simp)
    | ok s1 =>
      rw [hstep] at hok
      exact ih s1 s' hdata'.2
        (helpersStep_inv price w lastTime summary0 s s1 r rest hstep hinv hdata'.1) hok

theorem helpersFlush_id (price : Rat) (s : HState) (h : ¬ 0 < s.value) :
    helpersFlush price s = s := by
  unfold helpersFlush
  rw [if_neg h]

theorem helpersFlush_pos_none (price : Rat) (s : HState) (hv : 0 < s.value)
    (href : s.refDate = none) : helpersFlush price s = s := by
  unfold helpersFlush
  rw [if_pos hv, href]

theorem helpersFlush_pos_some (price : Rat) (s : HState) (rd : PyDateTime)
    (hv : 0 < s.value) (href : s.refDate = some rd) :
    helpersFlush price s =
      ⟨s.refDate, s.value, (helpersFinalize price s rd).2.1,
        (helpersFinalize price s rd).2.2⟩ := by
  unfold helpersFlush
  rw [if_pos hv, href]

theorem energyRecords_mk (a : Option PyDateTime) (b c : Rat)
    (l : List (PyDateTime × HCell)) :
    energyRecords ⟨a, b, c, l⟩
      = l.map fun p => (⟨p.1, p.2.state, p.2.sum⟩ : StatisticData) := rfl

/-- Flushing a state that satisfies the invariant yields rows satisfying the
running-sum recurrence. -/
theorem helpersFlush_sumsOK (price summary0 : Rat) (s : HState)
    (hinv : InvC2 summary0 s []) :
    sumsOK summary0 (energyRecords (helpersFlush price s)) := by
  obtain ⟨hsums, hsummary, hnone, hsome⟩ := hinv
  by_cases hv : 0 < s.value
  · cases href : s.refDate with
    | none =>
      rw [helpersFlush_pos_none price s hv href]
      exact hsums
    | some rd =>
      obtain ⟨hkeys, _⟩ := hsome rd href
      have hfresh : ∀ p ∈ s.stats, p.1 ≠ dateatmidnight rd := by
        intro p hp heq
        have hlt := hkeys p hp
        rw [heq, dateatmidnight_days] at hlt
        exact lt_irrefl _ hlt
      have hget : dictGet s.stats (dateatmidnight rd) = none := dictGet_eq_none _ _ hfresh
      have hupsert := dictUpsert_eq_append s.stats (dateatmidnight rd)
        (⟨s.value, s.summary + s.value, pyRound2 (s.value * price),
          pyRound2 ((s.summary + s.value) * price)⟩ : HCell) hfresh
      rw [helpersFlush_pos_some price s rd hv href,
        helpersFinalize_of_get_none price s rd hget]
      show sumsOK summary0 (energyRecords
        ⟨s.refDate, s.value, s.summary + s.value,
          dictUpsert s.stats (dateatmidnight rd)
            ⟨s.value, s.summary + s.value, pyRound2 (s.value * price),
              pyRound2 ((s.summary + s.value) * price)⟩⟩)
      rw [energyRecords_mk, hupsert, List.map_append]
      refine sumsOK_append summary0 _ _ hsums ?_
      show s.summary + s.value
        = lastRecSum summary0
            (s.stats.map fun p => (⟨p.1, p.2.state, p.2.sum⟩ : StatisticData)) + s.value
      rw [lastRecSum_map, ← hsummary]
  · rw [helpersFlush_id price s hv]
    exact hsums

/-! ## C2: the running-sum recurrence -/

/-- C2: whenever the per-rule pass of `helpers.py` `async_statistics` over a
chronologically ascending, calendar-consistent dataset completes, the emitted
energy rows satisfy `sum[0] = seed + state[0]` and
`sum[i] = sum[i-1] + state[i]` — where the seed is the last persisted sum
fetched from the store (0 when absent) — and, whenever every period energy is
non-negative, the emitted sums are monotonically non-decreasing. -/
theorem c2_running_sum (price : Rat) (w : Window) (lastTime : Option String)
    (summary0 : Rat) (datas : List Reading) (s : HState)
    (hdata : DataOK datas)
    (hok : async_statistics_rule price w lastTime summary0 datas = Except.ok s) :
    sumsOK summary0 (energyRecords s) ∧
    ((∀ rec ∈ energyRecords s, 0 ≤ rec.state) → sumsNondec (energyRecords s)) := by
  unfold async_statistics_rule helpersRunFrom at hok
  cases hloop : helpersLoop price w lastTime ⟨none, 0, summary0, []⟩ datas with
  | error e =>
    rw [hloop] at hok
    exact absurd hok (by simp)
  | ok s1 =>
    rw [hloop] at hok
    injection hok with hs
    subst hs
    have hinit : InvC2 summary0 ⟨none, 0, summary0, []⟩ datas := by
      refine ⟨trivial, rfl, fun _ => ⟨rfl, rfl⟩, ?_⟩
      intro rd hrd
      exact absurd hrd (by simp)
    have hfin := helpersLoop_inv price w lastTime summary0 datas _ s1 hdata hinit hloop
    have hsums := helpersFlush_sumsOK price summary0 s1 hfin
    exact ⟨hsums, fun hpos => sumsOK_nondec summary0 _ hsums hpos⟩

/-- The concrete one-reading run used by the witnesses: price 0, whole-day
window, no persisted state, seed 7, one 1000 Wh reading at 2023-01-05 12:00.
The loop accumulates 1 kWh and the flush emits the bucket (1, 8). -/
theorem helpersRun_concrete :
    helpersRunFrom 0 wholeDay none ⟨none, 0, 7, []⟩ [rJan5]
      = Except.ok ⟨some (setUTC jan5noon), 1, 8, [(jan5mid, ⟨1, 8, 0, 0⟩)]⟩ := by
  norm_num [helpersRunFrom, helpersLoop, helpersStep, helpersMachine, helpersFlush,
    helpersFinalize, effective_kwh, weighted_interval, has_range, setUTC, dateatmidnight,
    mkTimeHMS, dictGet, dictUpsert, pyRound2, rJan5, jan5noon, jan5mid, wholeDay]

theorem asyncRun_concrete :
    async_statistics_rule 0 wholeDay none 7 [rJan5]
      = Except.ok ⟨some (setUTC jan5noon), 1, 8, [(jan5mid, ⟨1, 8, 0, 0⟩)]⟩ :=
  helpersRun_concrete

/-- Witness for C2 on the concrete one-reading run: the emitted row (1, 8)
continues the persisted sum 7. -/
theorem c2_running_sum_witness :
    sumsOK 7 (energyRecords ⟨some (setUTC jan5noon), 1, 8, [(jan5mid, ⟨1, 8, 0, 0⟩)]⟩) :=
  (c2_running_sum 0 wholeDay none 7 [rJan5]
    ⟨some (setUTC jan5noon), 1, 8, [(jan5mid, ⟨1, 8, 0, 0⟩)]⟩
    (by unfold DataOK; simp) asyncRun_concrete).1

/-! ## C9: every emitted record starts at midnight UTC -/

theorem helpersFinalize_snd_upsert (price : Rat) (s : HState) (rd : PyDateTime) :
    ∃ cell, (helpersFinalize price s rd).2.2
      = dictUpsert s.stats (dateatmidnight rd) cell := by
  cases hget : dictGet s.stats (dateatmidnight rd) with
  | none =>
    exact ⟨⟨s.value, s.summary + s.value, pyRound2 (s.value * price),
      pyRound2 ((s.summary + s.value) * price)⟩,
      by rw [helpersFinalize_of_get_none price s rd hget]⟩
  | some cell =>
    simp only [helpersFinalize]
    rw [hget]
    exact ⟨_, rfl⟩

theorem helpersMachine_stats_mem (price : Rat) (s : HState) (dc : PyDateTime) (vc : Rat)
    (p : PyDateTime × HCell) (hp : p ∈ (helpersMachine price s dc vc).stats) :
    p ∈ s.stats ∨ midnightUTC p.1 := by
  cases href : s.refDate with
  | none =>
    rw [helpersMachine_none price s dc vc href] at hp
    exact Or.inl hp
  | some rd =>
    rw [helpersMachine_some price s dc vc rd href] at hp
    by_cases h1 : dc.dom = rd.dom
    · rw [if_pos h1] at hp
      exact Or.inl hp
    · rw [if_neg h1] at hp
      by_cases h2 : dc.tod = mkTimeHMS 0 0 0 ∧ rd.tod ≠ mkTimeHMS 0 0 0
      · rw [if_pos h2] at hp
        exact Or.inl hp
      · rw [if_neg h2] at hp
        have hp' : p ∈ (helpersFinalize price s rd).2.2 := hp
        rcases helpersFinalize_snd_upsert price s rd with ⟨cell, hcell⟩
        rw [hcell] at hp'
        rcases mem_dictUpsert _ _ _ _ hp' with h | h
        · rw [h]
          exact Or.inr ⟨rfl, rfl⟩
        · exact Or.inl h

theorem helpersStep_stats_mem (price : Rat) (w : Window) (lastTime : Option String)
    (s s' : HState) (r : Reading)
    (hok : helpersStep price w lastTime s r = Except.ok s')
    (p : PyDateTime × HCell) (hp : p ∈ s'.stats) :
    p ∈ s.stats ∨ midnightUTC p.1 := by
  simp only [helpersStep] at hok
  cases hw : has_range (setUTC r.date).tod w.start w.stop with
  | false =>
    rw [hw] at hok
    simp only [Bool.not_false, if_true, Except.ok.injEq] at hok
    subst hok
    exact Or.inl hp
  | true =>
    rw [hw] at hok
    simp only [Bool.not_true, Bool.false_eq_true, if_false] at hok
    cases lastTime with
    | some t => exact absurd hok (by simp)
    | none =>
      simp only [Except.ok.injEq] at hok
      subst hok
      exact helpersMachine_stats_mem price s (setUTC r.date) (effective_kwh r) p hp

theorem helpersLoop_stats_mem (price : Rat) (w : Window) (lastTime : Option String) :
    ∀ (datas : List Reading) (s s' : HState),
      helpersLoop price w lastTime s datas = Except.ok s' →
      (∀ p ∈ s.stats, midnightUTC p.1) →
      ∀ p ∈ s'.stats, midnightUTC p.1 := by
  intro datas
  induction datas with
  | nil =>
    intro s s' hok hall
    unfold helpersLoop at hok
    injection hok with hs
    subst hs
    exact hall
  | cons r rest ih =>
    intro s s' hok hall
    unfold helpersLoop at hok
    cases hstep : helpersStep price w lastTime s r with
    | error e =>
      rw [hstep] at hok
      exact absurd hok (by simp)
    | ok s1 =>
      rw [hstep] at hok
      refine ih s1 s' hok ?_
      intro p hp
      rcases helpersStep_stats_mem price w lastTime s s1 r hstep p hp with h | h
      · exact hall p h
      · exact h

theorem helpersFlush_stats_mem (price : Rat) (s : HState) (p : PyDateTime × HCell)
    (hp : p ∈ (helpersFlush price s).stats) : p ∈ s.stats ∨ midnightUTC p.1 := by
  by_cases hv : 0 < s.value
  · cases href : s.refDate with
    | none =>
      rw [helpersFlush_pos_none price s hv href] at hp
      exact Or.inl hp
    | some rd =>
      rw [helpersFlush_pos_some price s rd hv href] at hp
      have hp' : p ∈ (helpersFinalize price s rd).2.2 := hp
      rcases helpersFinalize_snd_upsert price s rd with ⟨cell, hcell⟩
      rw [hcell] at hp'
      rcases mem_dictUpsert _ _ _ _ hp' with h | h
      · rw [h]
        exact Or.inr ⟨rfl, rfl⟩
      · exact Or.inl h
  · rw [helpersFlush_id price s hv] at hp
    exact Or.inl hp

/-- C9: every `StatisticData` row emitted by the `helpers.py` pass — energy
and cost alike — has a start lying exactly at 00:00:00 with the UTC flag set,
for every input dataset, rule parameterisation and initial state whose rows
already satisfy this (in particular the fresh empty state). -/
theorem c9_midnight_utc (price : Rat) (w : Window) (lastTime : Option String)
    (s0 : HState) (datas : List Reading) (s : HState)
    (h0 : ∀ p ∈ s0.stats, midnightUTC p.1)
    (hok : helpersRunFrom price w lastTime s0 datas = Except.ok s) :
    ∀ rec ∈ energyRecords s ++ costRecords s, midnightUTC rec.start := by
  unfold helpersRunFrom at hok
  cases hloop : helpersLoop price w lastTime s0 datas with
  | error e =>
    rw [hloop] at hok
    exact absurd hok (by simp)
  | ok s1 =>
    rw [hloop] at hok
    injection hok with hs
    subst hs
    intro rec hrec
    have hstats : ∀ p ∈ (helpersFlush price s1).stats, midnightUTC p.1 := by
      intro p hp
      rcases helpersFlush_stats_mem price s1 p hp with h | h
      · exact helpersLoop_stats_mem price w lastTime datas s0 s1 hloop h0 p h
      · exact h
    rcases List.mem_append.mp hrec with h | h
    · unfold energyRecords at h
      rcases List.mem_map.mp h with ⟨p, hp, hrec'⟩
      rw [← hrec']
      exact hstats p hp
    · unfold costRecords at h
      rcases List.mem_map.mp h with ⟨p, hp, hrec'⟩
      rw [← hrec']
      exact hstats p hp

/-- Witness for C9: the emitted row of the concrete run starts at
2023-01-05 00:00:00 UTC. -/
theorem c9_midnight_utc_witness : midnightUTC jan5mid :=
  c9_midnight_utc 0 wholeDay none ⟨none, 0, 7, []⟩ [rJan5]
    ⟨some (setUTC jan5noon), 1, 8, [(jan5mid, ⟨1, 8, 0, 0⟩)]⟩
    (fun p hp => absurd hp (List.not_mem_nil p))
    helpersRun_concrete
    ⟨jan5mid, 1, 8⟩
    (by unfold energyRecords costRecords; simp)

end Enedis
